import Mathlib

/-!
Verification of the `form` package (form.go): a shallow embedding of the
field-presentation pipeline (`Render`, `RenderField`), validation-error
rendering (`ValidationError.Error`), outcome mapping (`Validate`), and
construction (`New`), together with a spec-modelled field extractor
(`fields` lives in a file of the repository that is not available here).
Template execution (`Tpl.Execute`) is an external collaborator and is
modelled as an explicit function argument `exec : Field → Except String String`.
-/

namespace FormGo

/-! ## Fragments of the Go `strings` package -/

/-- Go `strings.Contains(s, sub)` on character lists: `sub` occurs as a
contiguous substring of `s`. -/
def listContains (sub : List Char) : List Char → Bool
  | [] => sub.isEmpty
  | c :: t => sub.isPrefixOf (c :: t) || listContains sub t

/-- Go `strings.Contains(s, sub)`. -/
def strContains (s sub : String) : Bool :=
  listContains sub.data s.data

/-- ASCII fragment of Go `unicode`'s `isSeparator`, as used by `strings.Title`:
an ASCII character separates words unless it is alphanumeric or `_`. -/
def goIsSeparator (c : Char) : Bool :=
  !(c.isAlphanum || c == '_')

/-- The character map of Go `strings.Title`: title-case a character when the
previous character is a separator (the scan starts as if after a space). -/
def titleMap : Char → List Char → List Char
  | _, [] => []
  | prev, c :: cs => (if goIsSeparator prev then c.toUpper else c) :: titleMap c cs

/-- Go `strings.Title` (ASCII model): capitalize the first letter of every
word. -/
def stringsTitle (s : String) : String :=
  String.mk (titleMap ' ' s.data)

/-- Go `sv[len(sv)-1:]` for non-empty `sv`: the one-character suffix.
(On the empty string the Go expression panics; the model returns `""`,
a case no registered skip entry of the claims reaches.) -/
def lastChar (s : String) : String :=
  match s.data.getLast? with
  | some c => String.mk [c]
  | none => ""

/-! ## Data model

`Field` is the descriptor produced by the extractor and consumed by the
template (its Go definition lives in the repository file that is not in
src/; the components below are the ones form.go and the default template
read). The Go member `Type` is rendered `Typ` because `Type` is a Lean
keyword; Go `Items` is a `map[string]interface{}` from display label to
option value, modelled as an association list in iteration order. -/

structure Field where
  Name : String := ""
  ID : String := ""
  Label : String := ""
  Placeholder : String := ""
  Typ : String := ""
  Value : String := ""
  Items : List (String × String) := []
  SelectValue : String := ""
  Errors : List String := []
  Attrs : String := ""
  Footer : String := ""
  Prefix : String := ""
deriving Repr, DecidableEq

/-- The `Form` configuration (form.go). `Tpl` holds the installed template
text (parsing and execution are external); `selectMap` models the Go
`map[string]map[string]interface{}` as an association list where a later
registration is consed on front (last registration wins on lookup);
`ErrMap` is the Go member `Errors map[string][]string` ("for future use"). -/
structure Form where
  Tpl : String := ""
  selectMap : List (String × List (String × String)) := []
  Action : String := ""
  Method : String := ""
  Prefix : String := ""
  Skip : List String := []
  ErrMap : List (String × List String) := []
deriving Repr, DecidableEq

/-- `Form.SkipField` (form.go): append one skip entry. -/
def Form.SkipField (f : Form) (skip : String) : Form :=
  { f with Skip := f.Skip ++ [skip] }

/-- `Form.Select` (form.go): register a select map under a field name
(last registration wins, modelled by consing so that lookup sees the
latest first). -/
def Form.Select (f : Form) (nm : String) (mp : List (String × String)) : Form :=
  { f with selectMap := (nm, mp) :: f.selectMap }

/-! ## Validation errors (form.go) -/

/-- `ValidationError` (form.go). `Param` is `interface{}` in Go, always
formatted with `%s`; it is modelled as the string it formats to. The Go
member `Type` is rendered `Typ`. -/
structure ValidationError where
  Field : String := ""
  Value : String := ""
  Typ : String := ""
  Override : String := ""
  Param : String := ""
deriving Repr, DecidableEq

/-- `ValidationError.Error` (form.go): the override verbatim when non-empty;
otherwise `out` starts as `strings.Title(v.Type)` and the `switch`
replaces it for the recognized kinds (`fmt.Sprintf("Invalid
Length,needs: %s", v.Param)` is string concatenation here). -/
def ValidationError.Error (v : ValidationError) : String :=
  if 0 < v.Override.length then v.Override
  else
    let out := stringsTitle v.Typ
    let out := if v.Typ == "email" then "Invalid Email" else out
    let out := if v.Typ == "len" then "Invalid Length,needs: " ++ v.Param else out
    let out := if v.Typ == "alpha" then "Letters Only" else out
    out

/-! ## The presentation pipeline of `Render` / `RenderField` (form.go) -/

/-- One iteration of the skip loop body (form.go): an entry dumps the field
when it equals the field name, or when it ends in `"."` and the name
contains it as a substring. -/
def skipMatches (sv name : String) : Bool :=
  if sv == name then true
  else if lastChar sv == "." then strContains name sv
  else false

/-- The whole skip loop (form.go): `dump` becomes true when any registered
entry matches. -/
def skipDump (skip : List String) (name : String) : Bool :=
  skip.any fun sv => skipMatches sv name

/-- `field.Prefix = f.Prefix` (form.go). -/
def setPrefix (f : Form) (field : Field) : Field :=
  { field with Prefix := f.Prefix }

/-- The `SelectValue` loop (form.go): `for v, k := range it { if k ==
field.Value { field.SelectValue = v } }`, over the items in iteration
order, starting from the current `SelectValue`. -/
def selResolve (it : List (String × String)) (value sv : String) : String :=
  it.foldl (fun acc p => if p.2 == value then p.1 else acc) sv

/-- The select/checkbox enrichment block (form.go): when the field's type is
select or checkbox and a map is registered under its name, install it as
`Items` and run the `SelectValue` reverse lookup. -/
def enrichSelect (f : Form) (field : Field) : Field :=
  if field.Typ == "select" || field.Typ == "checkbox" then
    match List.lookup field.Name f.selectMap with
    | some it =>
        { field with Items := it, SelectValue := selResolve it field.Value field.SelectValue }
    | none => field
  else field

/-- The error-attachment loop (form.go): for each reported failure whose
`Field` equals the field's `Name`, append its rendered message. -/
def attachErrs (errs : List ValidationError) (field : Field) : Field :=
  errs.foldl
    (fun fl ee =>
      if ee.Field == fl.Name then { fl with Errors := fl.Errors ++ [ee.Error] } else fl)
    field

/-- Everything `Render` does to one field before handing it to the template:
set the prefix, enrich select/checkbox, attach errors. -/
def presentField (f : Form) (errs : List ValidationError) (field : Field) : Field :=
  attachErrs errs (enrichSelect f (setPrefix f field))

/-- The `Render` loop (form.go), threading the `Form` explicitly: every Go
statement of the loop reads `f` and writes only the loop-local `field`,
`dump`, `sb` and `html`, so the embedding passes `f` along unchanged
wherever the Go code would have had a chance to write it. On a template
execution error Go returns `("", err)`. -/
def renderLoop (f : Form) (exec : Field → Except String String)
    (errs : List ValidationError) : List Field → String → (String × Option String) × Form
  | [], html => ((html, none), f)
  | field0 :: rest, html =>
      let field := setPrefix f field0
      if skipDump f.Skip field.Name then renderLoop f exec errs rest html
      else
        match exec (attachErrs errs (enrichSelect f field)) with
        | .error e => (("", some e), f)
        | .ok s => renderLoop f exec errs rest (html ++ s)

/-- The `RenderField` loop (form.go): identical to the `Render` loop except
that a field whose `Name` differs from `field_name` is passed over before
anything else happens. -/
def renderFieldLoop (f : Form) (exec : Field → Except String String)
    (errs : List ValidationError) (fname : String) :
    List Field → String → (String × Option String) × Form
  | [], html => ((html, none), f)
  | field0 :: rest, html =>
      if field0.Name != fname then renderFieldLoop f exec errs fname rest html
      else
        let field := setPrefix f field0
        if skipDump f.Skip field.Name then renderFieldLoop f exec errs fname rest html
        else
          match exec (attachErrs errs (enrichSelect f field)) with
          | .error e => (("", some e), f)
          | .ok s => renderFieldLoop f exec errs fname rest (html ++ s)

end FormGo

namespace FormGo

/-! ## The field extractor, modelled from the spec

The repository file defining `fields` and the `Field` struct is not part
of src/; the extractor below is modelled from the spec. -/

/-- Declared leaf data types, for the spec's type inference
(string→text, boolean→checkbox, numeric→number, time-like→date). -/
inductive LeafTy : Type where
  | str : LeafTy
  | boolean : LeafTy
  | num : LeafTy
  | timeTy : LeafTy
deriving Repr, DecidableEq

/-- Modelled from the spec: the default `Type` inference of the Field
Extractor is total — every declared leaf type maps to exactly one input
type. -/
def inferTy : LeafTy → String
  | .str => "text"
  | .boolean => "checkbox"
  | .num => "number"
  | .timeTy => "date"

/-- Modelled from the spec: a record is an ordered list of named members;
a member is a leaf (declared type and current stringified value), a
nested record, or a pointer-typed nested member (`isNil` true when the
pointer is unset). The list structure is fused into the inductive so the
walk is structurally recursive. -/
inductive Rec : Type where
  | nil : Rec
  | consLeaf (nm : String) (ty : LeafTy) (value : String) (rest : Rec) : Rec
  | consNested (nm : String) (sub : Rec) (rest : Rec) : Rec
  | consPtr (nm : String) (pointee : Rec) (isNil : Bool) (rest : Rec) : Rec
deriving Repr, DecidableEq

/-- Modelled from the spec: the zero-initialized instance of a record's
type — every leaf value empty, every pointer member nil. -/
def zeroRec : Rec → Rec
  | .nil => .nil
  | .consLeaf nm ty _ rest => .consLeaf nm ty "" (zeroRec rest)
  | .consNested nm sub rest => .consNested nm (zeroRec sub) (zeroRec rest)
  | .consPtr nm pointee _ rest => .consPtr nm pointee true (zeroRec rest)

/-- Modelled from the spec: the Name/Path Resolver — top level uses the
member name, nesting dot-joins the ancestor path. -/
def joinName (path nm : String) : String :=
  if path == "" then nm else path ++ "." ++ nm

/-- Modelled from the spec: a humanized (space-inserted before an upper-case
letter following a lower-case one, title-cased) form of a declared member
name, the default for `Label` and `Placeholder`. -/
def humanize (nm : String) : String :=
  stringsTitle (String.mk (spaceOut ' ' nm.data))
where
  spaceOut : Char → List Char → List Char
    | _, [] => []
    | prev, c :: cs =>
        if prev.isLower && c.isUpper then ' ' :: c :: spaceOut c cs
        else c :: spaceOut c cs

/-- Modelled from the spec: the leaf `Field` built by the extractor — `Name`
from the resolver, `ID` a sanitized form of `Name` (dots to underscores),
humanized default label and placeholder, inferred type, the member's
current stringified value. -/
def mkLeafField (name nm : String) (ty : LeafTy) (value : String) : Field :=
  { Name := name
    ID := String.mk (name.data.map fun c => if c == '.' then '_' else c)
    Label := humanize nm
    Placeholder := humanize nm
    Typ := inferTy ty
    Value := value }

/-- Modelled from the spec: the Field Extractor walk. One `Field` per leaf
member in declaration order, depth-first; a nested member contributes its
leaves contiguously and no field of its own; a nil pointer member is
still walked as its pointee's zero-initialized instance — operationally
the walk carries a `zeroed` flag that blanks every leaf value it reads
(walking a zero instance reads empty leaf values and again-nil pointers,
so the flag stays set below a nil pointer; `extractRec_zeroRec` proves
the flag equals walking `zeroRec`). -/
def extractRec (path : String) (zeroed : Bool) : Rec → List Field
  | .nil => []
  | .consLeaf nm ty v rest =>
      mkLeafField (joinName path nm) nm ty (if zeroed then "" else v)
        :: extractRec path zeroed rest
  | .consNested nm sub rest =>
      extractRec (joinName path nm) zeroed sub ++ extractRec path zeroed rest
  | .consPtr nm pointee isNil rest =>
      extractRec (joinName path nm) (zeroed || isNil) pointee ++ extractRec path zeroed rest

/-- Modelled from the spec: `fields(v)` — extraction of a top-level record,
prefix-agnostic. -/
def fields (r : Rec) : List Field :=
  extractRec "" false r

/-- Modelled from the spec: the number of leaf members of a record, counting
through nested and pointer members. -/
def leafCount : Rec → Nat
  | .nil => 0
  | .consLeaf _ _ _ rest => 1 + leafCount rest
  | .consNested _ sub rest => leafCount sub + leafCount rest
  | .consPtr _ pointee _ rest => leafCount pointee + leafCount rest

/-! ## `Render`, `RenderField`, `Validate`, `New` (form.go) -/

/-- `Form.Render` (form.go): extract, then run the presentation loop; the
returned `Form` component witnesses what the method left of the
receiver's configuration. -/
def Form.Render (f : Form) (exec : Field → Except String String) (v : Rec)
    (errs : List ValidationError) : (String × Option String) × Form :=
  renderLoop f exec errs (fields v) ""

/-- `Form.RenderField` (form.go): like `Render`, rendering only fields whose
`Name` equals `fname`. -/
def Form.RenderField (f : Form) (exec : Field → Except String String) (v : Rec)
    (fname : String) (errs : List ValidationError) : (String × Option String) × Form :=
  renderFieldLoop f exec errs fname (fields v) ""

/-- The raw entry of the external validation library's field-error list
(`validator.FieldError`: field name, value, tag, parameter). -/
structure RawFieldError where
  field : String := ""
  value : String := ""
  tag : String := ""
  param : String := ""
deriving Repr, DecidableEq

/-- The three outcomes the external validation library can produce for
`Validator.Struct`: no error, a `*validator.InvalidValidationError`
(internal error: invalid struct shape), or `validator.ValidationErrors`. -/
inductive ValidatorResult : Type where
  | valid : ValidatorResult
  | invalidValidation : ValidatorResult
  | fieldErrors (es : List RawFieldError) : ValidatorResult
deriving Repr, DecidableEq

/-- `Form.Validate` (form.go), as a function of the validation library's
outcome: internal error returns `(false, nil)` before the loop; field
errors are converted in order (Override left empty); success returns
`(true, nil)`. -/
def Validate : ValidatorResult → Bool × List ValidationError
  | .valid => (true, [])
  | .invalidValidation => (false, [])
  | .fieldErrors es =>
      (false, es.map fun e =>
        { Field := e.field, Value := e.value, Typ := e.tag, Param := e.param })

/-- `basetmpl` (form.go `init`): the built-in default template text. -/
def basetmpl : String :=
  "<div class=\"form-group\">\n    \x7b\x7bif ne .Type \"hidden\"\x7d\x7d\n    <label class=\"form-label\" \x7b\x7bwith .ID\x7d\x7dfor=\"\x7b\x7b.\x7d\x7d\"\x7b\x7bend\x7d\x7d>\n        \x7b\x7b.Label\x7d\x7d\n    </label>\n    \x7b\x7bend\x7d\x7d\n    \x7b\x7bif eq .Type \"textarea\"\x7d\x7d\n    <textarea \x7b\x7b.Attrs\x7d\x7d class=\"form-control\" \x7b\x7bwith .ID\x7d\x7did=\"\x7b\x7b.\x7d\x7d\"\x7b\x7bend\x7d\x7d name=\"\x7b\x7b.Name\x7d\x7d\" rows=\"3\" placeholder=\"\x7b\x7b.Placeholder\x7d\x7d\">\x7b\x7bwith .Value\x7d\x7d\x7b\x7b.\x7d\x7d\x7b\x7bend\x7d\x7d</textarea>\n    \x7b\x7belse if eq .Type \"checkbox\" \x7d\x7d\n    <input \x7b\x7b.Attrs\x7d\x7d type=\"\x7b\x7b.Type\x7d\x7d\"  class=\"form-check-input\" \x7b\x7bwith .ID\x7d\x7did=\"\x7b\x7b.\x7d\x7d\"\x7b\x7bend\x7d\x7d name=\"\x7b\x7b.Name\x7d\x7d\" placeholder=\"\x7b\x7b.Placeholder\x7d\x7d\" \x7b\x7bwith .Value\x7d\x7dvalue=\"\x7b\x7b.\x7d\x7d\"\x7b\x7bend\x7d\x7d>\n    \x7b\x7belse if eq .Type \"select\" \x7d\x7d\n    <select \x7b\x7b.Attrs\x7d\x7d class=\"form-control\" \x7b\x7bwith .ID\x7d\x7did=\"\x7b\x7b.\x7d\x7d\"\x7b\x7bend\x7d\x7d name=\"\x7b\x7b.Name\x7d\x7d\" \x7b\x7b.SelectType\x7d\x7d>\n        \x7b\x7b $myval := .Value \x7d\x7d\n        \x7b\x7b if gt (len .Placeholder) 0 \x7d\x7d\n        <option value=\"\" >\x7b\x7b .Placeholder \x7d\x7d</option>\n        \x7b\x7b end \x7d\x7d\n        \x7b\x7b range $v,$k := .Items\x7d\x7d\n          <option \x7b\x7b if eq $myval $k  \x7d\x7dselected=\"selected\"\x7b\x7bend\x7d\x7dvalue=\"\x7b\x7b$k\x7d\x7d\">\x7b\x7b$v\x7d\x7d</option>\n        \x7b\x7bend\x7d\x7d\n    </select>\n    \x7b\x7b else \x7d\x7d\n    <input \x7b\x7b.Attrs\x7d\x7d type=\"\x7b\x7b.Type\x7d\x7d\" class=\"form-control\" \x7b\x7bwith .ID\x7d\x7did=\"\x7b\x7b.\x7d\x7d\"\x7b\x7bend\x7d\x7d name=\"\x7b\x7b.Name\x7d\x7d\" placeholder=\"\x7b\x7b.Placeholder\x7d\x7d\" \x7b\x7bwith .Value\x7d\x7dvalue=\"\x7b\x7b.\x7d\x7d\"\x7b\x7bend\x7d\x7d>\n    \x7b\x7bend\x7d\x7d\n    \x7b\x7bwith .Footer\x7d\x7d\n    <small class=\"form-text text-muted\"> \x7b\x7b.\x7d\x7d </small>\n    \x7b\x7bend\x7d\x7d\n</div>"

/-- `New` (form.go): the template-file read is external, modelled as its
result; on a read error the built-in default template is installed. The
Go function builds a local `Form` and returns `&f, errf` — the pointer is
never nil, modelled by `some`; the read error is returned alongside. -/
def New (readResult : Except String String) : Option Form × Option String :=
  let frmstr := match readResult with
    | .error _ => basetmpl
    | .ok s => s
  let f : Form := { Tpl := frmstr }
  (some f, match readResult with
    | .error e => some e
    | .ok _ => none)

end FormGo

namespace FormGo

/-! ## Helper lemmas on the presentation steps -/

theorem setPrefix_Name (f : Form) (fld : Field) : (setPrefix f fld).Name = fld.Name := rfl

theorem setPrefix_ID (f : Form) (fld : Field) : (setPrefix f fld).ID = fld.ID := rfl

theorem setPrefix_Prefix (f : Form) (fld : Field) : (setPrefix f fld).Prefix = f.Prefix := rfl

theorem enrichSelect_Name (f : Form) (fld : Field) : (enrichSelect f fld).Name = fld.Name := by
  unfold enrichSelect
  split
  · split <;> rfl
  · rfl

theorem enrichSelect_ID (f : Form) (fld : Field) : (enrichSelect f fld).ID = fld.ID := by
  unfold enrichSelect
  split
  · split <;> rfl
  · rfl

theorem enrichSelect_Errors (f : Form) (fld : Field) :
    (enrichSelect f fld).Errors = fld.Errors := by
  unfold enrichSelect
  split
  · split <;> rfl
  · rfl

theorem enrichSelect_Prefix (f : Form) (fld : Field) :
    (enrichSelect f fld).Prefix = fld.Prefix := by
  unfold enrichSelect
  split
  · split <;> rfl
  · rfl

theorem attachErrs_eq (errs : List ValidationError) (fld : Field) :
    attachErrs errs fld =
      { fld with Errors :=
          fld.Errors ++ (errs.filter fun e => e.Field == fld.Name).map ValidationError.Error } := by
  induction errs generalizing fld with
  | nil => simp [attachErrs]
  | cons e es ih =>
    have step : attachErrs (e :: es) fld =
        attachErrs es
          (if e.Field == fld.Name then { fld with Errors := fld.Errors ++ [e.Error] } else fld) :=
      rfl
    by_cases h : e.Field == fld.Name
    · rw [step, if_pos h, ih]
      simp [List.filter_cons, h]
    · rw [step, if_neg h, ih]
      simp [List.filter_cons, h]

theorem attachErrs_Name (errs : List ValidationError) (fld : Field) :
    (attachErrs errs fld).Name = fld.Name := by
  rw [attachErrs_eq]

theorem attachErrs_ID (errs : List ValidationError) (fld : Field) :
    (attachErrs errs fld).ID = fld.ID := by
  rw [attachErrs_eq]

theorem attachErrs_Prefix (errs : List ValidationError) (fld : Field) :
    (attachErrs errs fld).Prefix = fld.Prefix := by
  rw [attachErrs_eq]

theorem presentField_Errors (f : Form) (errs : List ValidationError) (fld : Field) :
    (presentField f errs fld).Errors =
      fld.Errors ++ (errs.filter fun e => e.Field == fld.Name).map ValidationError.Error := by
  unfold presentField
  rw [attachErrs_eq]
  simp [enrichSelect_Errors, enrichSelect_Name, setPrefix_Name]
  rfl

/-! ## C3 — prefix application at presentation time -/

/-- The registered prefix is not prepended to `Name`/`ID`; a concrete
presented field keeps `Name = "X"` although the claim demands
`"ns." ++ "X"`. -/
theorem prefix_not_prepended_cex :
    (presentField { Prefix := "ns." } [] { Name := "X", ID := "X" }).Name = "X" ∧
    (presentField { Prefix := "ns." } [] { Name := "X", ID := "X" }).ID = "X" ∧
    ("X" : String) ≠ "ns." ++ "X" := by
  refine ⟨rfl, rfl, by decide⟩

/-- C3 amended: presentation uniformly sets every field's separate
`Prefix` attribute to the registered namespace prefix and leaves `Name`
and `ID` unchanged (the default template renders the name attribute from
`Name` alone; a custom template may combine `Prefix` and `Name`). -/
theorem prefix_sets_attribute_only (f : Form) (errs : List ValidationError) (fld : Field) :
    (presentField f errs fld).Prefix = f.Prefix ∧
    (presentField f errs fld).Name = fld.Name ∧
    (presentField f errs fld).ID = fld.ID := by
  unfold presentField
  refine ⟨?_, ?_, ?_⟩
  · rw [attachErrs_Prefix, enrichSelect_Prefix, setPrefix_Prefix]
  · rw [attachErrs_Name, enrichSelect_Name, setPrefix_Name]
  · rw [attachErrs_ID, enrichSelect_ID, setPrefix_ID]

/-! ## C7 — Render leaves the configuration unchanged -/

theorem renderLoop_snd (f : Form) (exec : Field → Except String String)
    (errs : List ValidationError) (flds : List Field) (html : String) :
    (renderLoop f exec errs flds html).2 = f := by
  induction flds generalizing html with
  | nil => rfl
  | cons fld rest ih =>
    unfold renderLoop
    dsimp only
    split
    · exact ih html
    · split
      · rfl
      · exact ih _

/-- C7: `Render` has no side effect on the configuration it reads — the
threaded `Form` comes back equal to the receiver, in particular its
`Skip`, `selectMap` and `Prefix`. -/
theorem render_preserves_config (f : Form) (exec : Field → Except String String)
    (v : Rec) (errs : List ValidationError) :
    (Form.Render f exec v errs).2 = f ∧
    (Form.Render f exec v errs).2.Skip = f.Skip ∧
    (Form.Render f exec v errs).2.selectMap = f.selectMap ∧
    (Form.Render f exec v errs).2.Prefix = f.Prefix := by
  have h : (Form.Render f exec v errs).2 = f := renderLoop_snd f exec errs (fields v) ""
  exact ⟨h, by rw [h], by rw [h], by rw [h]⟩

/-! ## C9 — New always yields a usable Form -/

/-- C9: `New` returns a non-nil `Form` for every outcome of the template
file read; on a read error the built-in default template is installed and
the read error is returned alongside the usable `Form`. -/
theorem new_returns_usable_form (rr : Except String String) :
    ((New rr).1.isSome = true) ∧
    (∀ e, rr = .error e → New rr = (some { Tpl := basetmpl }, some e)) ∧
    (∀ s, rr = .ok s → New rr = (some { Tpl := s }, none)) := by
  cases rr with
  | error e =>
    refine ⟨rfl, ?_, ?_⟩
    · intro e' he
      cases he
      rfl
    · intro s hs
      cases hs
  | ok s =>
    refine ⟨rfl, ?_, ?_⟩
    · intro e he
      cases he
    · intro s' hs
      cases hs
      rfl

end FormGo

namespace FormGo

/-! ## C5 — rendering of one validation failure -/

theorem length_pos_of_ne (s : String) (h : s ≠ "") : 0 < s.length := by
  cases s with
  | mk data =>
    cases data with
    | nil => exact absurd rfl h
    | cons c cs => simp [String.length]

/-- `ValidationError.Error` with its `let` chain zeta-reduced. -/
theorem Error_eq (v : ValidationError) :
    v.Error =
      if 0 < v.Override.length then v.Override
      else if v.Typ == "alpha" then "Letters Only"
      else if v.Typ == "len" then "Invalid Length,needs: " ++ v.Param
      else if v.Typ == "email" then "Invalid Email"
      else stringsTitle v.Typ := rfl

/-- C5: a non-empty override is used verbatim; otherwise the recognized
kinds map to their fixed phrases and anything else renders as the
title-cased kind (e.g. `"required"` → `"Required"`). -/
theorem message_rendering_thm (v : ValidationError) :
    (v.Override ≠ "" → v.Error = v.Override) ∧
    (v.Override = "" →
      (v.Typ = "email" → v.Error = "Invalid Email") ∧
      (v.Typ = "len" → v.Error = "Invalid Length,needs: " ++ v.Param) ∧
      (v.Typ = "alpha" → v.Error = "Letters Only") ∧
      (v.Typ ≠ "email" ∧ v.Typ ≠ "len" ∧ v.Typ ≠ "alpha" →
        v.Error = stringsTitle v.Typ)) ∧
    stringsTitle "required" = "Required" := by
  refine ⟨?_, ?_, by decide⟩
  · intro h
    rw [Error_eq, if_pos (length_pos_of_ne _ h)]
  · intro h0
    have hlen : ¬ 0 < v.Override.length := by
      rw [h0]
      decide
    refine ⟨?_, ?_, ?_, ?_⟩
    · intro ht
      rw [Error_eq, if_neg hlen, ht, if_neg (by decide), if_neg (by decide),
        if_pos (by decide)]
    · intro ht
      rw [Error_eq, if_neg hlen, ht, if_neg (by decide), if_pos (by decide)]
    · intro ht
      rw [Error_eq, if_neg hlen, ht, if_pos (by decide)]
    · rintro ⟨h1, h2, h3⟩
      rw [Error_eq, if_neg hlen, if_neg (by simpa using h3), if_neg (by simpa using h2),
        if_neg (by simpa using h1)]

/-! ## C4 — error attachment to the matching field -/

/-- The reported failure of the claim: field `Email`, kind `email`, no
override. -/
def emailFail : ValidationError := { Field := "Email", Typ := "email" }

/-- C4: a presented field's `Errors` is the in-order rendering of exactly
the failures whose `Field` equals its `Name`; with the single failure
`(Field: "Email", Type: "email")` and no override, the field named
`"Email"` gets `["Invalid Email"]` and every other field gets nothing. -/
theorem error_attachment_thm (f : Form) (errs : List ValidationError) (fld : Field)
    (hE : fld.Errors = []) :
    ((presentField f errs fld).Errors
        = (errs.filter fun e => e.Field == fld.Name).map ValidationError.Error) ∧
    ((presentField f [emailFail] fld).Errors
        = if fld.Name = "Email" then ["Invalid Email"] else []) := by
  constructor
  · rw [presentField_Errors, hE]
    simp
  · rw [presentField_Errors, hE]
    by_cases h : fld.Name = "Email"
    · have hb : (emailFail.Field == fld.Name) = true := by
        simp [emailFail, h]
      simp [List.filter_cons, hb, h, emailFail]
      decide
    · have hb : (emailFail.Field == fld.Name) = false := by
        simp [emailFail]
        exact fun hh => h hh.symm
      simp [List.filter_cons, hb, h]

theorem error_attachment_witness :
    (presentField {} [emailFail] ({ Name := "Email" } : Field)).Errors
      = ["Invalid Email"] := by
  have h2 := (error_attachment_thm {} [emailFail] { Name := "Email" } rfl).2
  rwa [if_pos rfl] at h2

/-! ## C6 — Validate keeps the three outcomes apart -/

def emailRaw : RawFieldError := { field := "Email", tag := "email" }

/-- C6: success, a validator internal error, and a failure with field
errors give pairwise different `(bool, []ValidationError)` results
(the library's `ValidationErrors` list is never empty when returned). -/
theorem validate_outcomes_distinct (es : List RawFieldError) (hne : es ≠ []) :
    Validate .valid ≠ Validate .invalidValidation ∧
    Validate .valid ≠ Validate (.fieldErrors es) ∧
    Validate .invalidValidation ≠ Validate (.fieldErrors es) := by
  refine ⟨by decide, ?_, ?_⟩
  · simp [Validate]
  · intro hEq
    apply hne
    have h2 := congrArg Prod.snd hEq
    simp only [Validate] at h2
    exact List.map_eq_nil_iff.mp h2.symm

theorem validate_outcomes_distinct_witness :
    Validate .valid ≠ Validate (.fieldErrors [emailRaw]) ∧
    Validate .invalidValidation ≠ Validate (.fieldErrors [emailRaw]) := by
  have h := validate_outcomes_distinct [emailRaw] (by decide)
  exact ⟨h.2.1, h.2.2⟩

end FormGo

namespace FormGo

/-! ## More projection lemmas -/

theorem setPrefix_Typ (f : Form) (fld : Field) : (setPrefix f fld).Typ = fld.Typ := rfl

theorem setPrefix_Value (f : Form) (fld : Field) : (setPrefix f fld).Value = fld.Value := rfl

theorem attachErrs_SelectValue (errs : List ValidationError) (fld : Field) :
    (attachErrs errs fld).SelectValue = fld.SelectValue := by
  rw [attachErrs_eq]

theorem attachErrs_Items (errs : List ValidationError) (fld : Field) :
    (attachErrs errs fld).Items = fld.Items := by
  rw [attachErrs_eq]

/-- One unfolding step of the `Render` loop. -/
theorem renderLoop_cons (f : Form) (exec : Field → Except String String)
    (errs : List ValidationError) (fld : Field) (rest : List Field) (html : String) :
    renderLoop f exec errs (fld :: rest) html =
      if skipDump f.Skip fld.Name then renderLoop f exec errs rest html
      else
        match exec (attachErrs errs (enrichSelect f (setPrefix f fld))) with
        | .error e => (("", some e), f)
        | .ok s => renderLoop f exec errs rest (html ++ s) := rfl

/-! ## C1 — what a skip entry ending in "." removes -/

theorem isPrefixOf_refl (l : List Char) : l.isPrefixOf l = true := by
  induction l with
  | nil => rfl
  | cons c t ih => simp [List.isPrefixOf, ih]

theorem strContains_self (s : String) : strContains s s = true := by
  cases s with
  | mk data =>
    cases data with
    | nil => rfl
    | cons c cs =>
      unfold strContains listContains
      simp [isPrefixOf_refl]

theorem skipDump_addr (name : String) :
    skipDump ["Address."] name = strContains name "Address." := by
  unfold skipDump List.any skipMatches
  by_cases h : (("Address." : String) == name) = true
  · have hn : name = "Address." := (eq_of_beq h).symm
    subst hn
    simp [strContains_self]
  · simp only [h, if_neg]
    rw [if_neg (by simp [h])]
    rw [if_pos (by decide : (lastChar "Address." == ".") = true)]
    simp

/-- A field sequence filtered and rendered with no skip list behaves like
the sequence rendered under skip entry `"Address."`. -/
theorem skip_dot_removes_contains (sm : List (String × List (String × String)))
    (pre : String) (exec : Field → Except String String) (errs : List ValidationError)
    (flds : List Field) (html : String) :
    (renderLoop { selectMap := sm, Prefix := pre, Skip := ["Address."] } exec errs flds html).1
      = (renderLoop { selectMap := sm, Prefix := pre, Skip := [] } exec errs
          (flds.filter fun fl => !(strContains fl.Name "Address.")) html).1 := by
  induction flds generalizing html with
  | nil => rfl
  | cons fld rest ih =>
    rw [renderLoop_cons]
    show _ = (renderLoop _ exec errs (List.filter _ (fld :: rest)) html).1
    rw [List.filter_cons]
    by_cases hc : strContains fld.Name "Address." = true
    · rw [if_pos (by simpa [skipDump_addr] using hc)]
      rw [if_neg (by simp [hc])]
      exact ih html
    · rw [if_neg (by simpa [skipDump_addr] using hc)]
      rw [if_pos (by simp [hc])]
      rw [renderLoop_cons]
      rw [if_neg (by simp [skipDump])]
      cases hex : exec (attachErrs errs (enrichSelect
          { selectMap := sm, Prefix := pre, Skip := ["Address."] }
          (setPrefix { selectMap := sm, Prefix := pre, Skip := ["Address."] } fld))) with
      | error e =>
        rw [show exec (attachErrs errs (enrichSelect
            { selectMap := sm, Prefix := pre, Skip := [] }
            (setPrefix { selectMap := sm, Prefix := pre, Skip := [] } fld)))
          = Except.error e from hex]
      | ok s =>
        rw [show exec (attachErrs errs (enrichSelect
            { selectMap := sm, Prefix := pre, Skip := [] }
            (setPrefix { selectMap := sm, Prefix := pre, Skip := [] } fld)))
          = Except.ok s from hex]
        exact ih (html ++ s)

/-- A template-execution stand-in that renders a field as its `Name`. -/
def execName : Field → Except String String := fun fl => Except.ok fl.Name

/-- A record with the nested member `MailAddress{Street1}`: its one leaf
extracts as `Name = "MailAddress.Street1"`. -/
def recMail : Rec :=
  Rec.consNested "MailAddress" (Rec.consLeaf "Street1" LeafTy.str "x" Rec.nil) Rec.nil

/-- With skip entry `"Address."`, the field `MailAddress.Street1` — whose
`Name` does not have the prefix `"Address."` (checked on the character
lists) — is removed anyway (rendering is empty), refuting the claim that
only prefix-matching fields are removed. -/
theorem skip_dot_cex_mailaddress :
    ((Form.Render { Skip := ["Address."] } execName recMail []).1 = ("", none)) ∧
    ("Address.".data.isPrefixOf "MailAddress.Street1".data = false) := by
  constructor
  · rfl
  · decide

/-! ## C2 — the select reverse lookup -/

theorem selResolve_inv (it : List (String × String)) (value lab : String)
    (huni : ∀ p ∈ it, p.2 = value → p.1 = lab) :
    selResolve it value lab = lab := by
  induction it with
  | nil => rfl
  | cons p ps ih =>
    have step : selResolve (p :: ps) value lab
        = selResolve ps value (if p.2 == value then p.1 else lab) := rfl
    rw [step]
    by_cases h : (p.2 == value) = true
    · rw [if_pos h]
      rw [huni p (List.mem_cons_self _ _) (by simpa using h)]
      exact ih fun q hq => huni q (List.mem_cons_of_mem _ hq)
    · rw [if_neg h]
      exact ih fun q hq => huni q (List.mem_cons_of_mem _ hq)

theorem selResolve_eq (it : List (String × String)) (value lab acc : String)
    (hmem : (lab, value) ∈ it)
    (huni : ∀ p ∈ it, p.2 = value → p.1 = lab) :
    selResolve it value acc = lab := by
  induction it generalizing acc with
  | nil => cases hmem
  | cons p ps ih =>
    have step : selResolve (p :: ps) value acc
        = selResolve ps value (if p.2 == value then p.1 else acc) := rfl
    rw [step]
    rcases List.mem_cons.mp hmem with hp | hp
    · rw [← hp]
      rw [if_pos (by simp)]
      exact selResolve_inv ps value lab fun q hq => huni q (List.mem_cons_of_mem _ hq)
    · by_cases h : (p.2 == value) = true
      · rw [if_pos h]
        rw [huni p (List.mem_cons_self _ _) (by simpa using h)]
        exact selResolve_inv ps value lab fun q hq => huni q (List.mem_cons_of_mem _ hq)
      · rw [if_neg h]
        exact ih acc hp fun q hq => huni q (List.mem_cons_of_mem _ hq)

theorem enrichSelect_found (f : Form) (fld : Field) (it : List (String × String))
    (hTy : (fld.Typ == "select" || fld.Typ == "checkbox") = true)
    (hlk : List.lookup fld.Name f.selectMap = some it) :
    enrichSelect f fld =
      { fld with Items := it, SelectValue := selResolve it fld.Value fld.SelectValue } := by
  unfold enrichSelect
  rw [if_pos hTy, hlk]

/-- C2 amended: `SelectValue` becomes the registered map's key (the display
label) whose associated value equals the field's current `Value`; for the
round trip of the claim the map must be registered label→value, i.e.
`{"California": "CA", "New York": "NY"}`. -/
theorem select_reverse_lookup (f : Form) (errs : List ValidationError) (fld : Field)
    (it : List (String × String)) (lab : String)
    (hTy : fld.Typ = "select" ∨ fld.Typ = "checkbox")
    (hlk : List.lookup fld.Name f.selectMap = some it)
    (hmem : (lab, fld.Value) ∈ it)
    (huni : ∀ p ∈ it, p.2 = fld.Value → p.1 = lab) :
    (presentField f errs fld).SelectValue = lab ∧
    (presentField f errs fld).Items = it := by
  have hTyb : ((setPrefix f fld).Typ == "select" || (setPrefix f fld).Typ == "checkbox") = true := by
    rcases hTy with h | h <;> simp [setPrefix_Typ, h]
  have h1 : enrichSelect f (setPrefix f fld) =
      { setPrefix f fld with
          Items := it,
          SelectValue := selResolve it (setPrefix f fld).Value (setPrefix f fld).SelectValue } :=
    enrichSelect_found f (setPrefix f fld) it hTyb hlk
  unfold presentField
  rw [h1]
  rw [attachErrs_SelectValue, attachErrs_Items]
  exact ⟨selResolve_eq it fld.Value lab fld.SelectValue hmem huni, rfl⟩

/-- The `State` field of the claim, with current coded value `"CA"`. -/
def stateFieldCA : Field := { Name := "State", Typ := "select", Value := "CA" }

/-- The claim's registration, keys `"CA"`/`"NY"` mapping to the full names. -/
def formC2bad : Form := Form.Select {} "State" [("CA", "California"), ("NY", "New York")]

/-- The label→value registration the code's reverse lookup actually
round-trips. -/
def formC2good : Form := Form.Select {} "State" [("California", "CA"), ("New York", "NY")]

/-- Registering `{"CA":"California","NY":"New York"}` (as the claim writes
it) for the `State` field with `Value = "CA"` leaves `SelectValue` empty:
no map entry has value `"CA"`, so the claimed `SelectValue = "California"`
is false. -/
theorem select_map_orientation_cex :
    (presentField formC2bad [] stateFieldCA).SelectValue = "" ∧
    ("" : String) ≠ "California" := by
  constructor
  · rfl
  · decide

theorem select_reverse_lookup_witness :
    (presentField formC2good [] stateFieldCA).SelectValue = "California" ∧
    (presentField formC2good [] stateFieldCA).Items
      = [("California", "CA"), ("New York", "NY")] := by
  exact select_reverse_lookup formC2good [] stateFieldCA
    [("California", "CA"), ("New York", "NY")] "California"
    (Or.inl rfl) rfl (by decide) (by decide)

end FormGo

namespace FormGo

/-! ## C8 — nil pointer members are walked as zero instances -/

theorem extractRec_zeroRec (r : Rec) : ∀ (path : String) (z : Bool),
    extractRec path z (zeroRec r) = extractRec path true r := by
  induction r with
  | nil => intro path z; rfl
  | consLeaf nm ty v rest ih =>
    intro path z
    simp [extractRec, zeroRec, ih, ite_self]
  | consNested nm sub rest ihs ihr =>
    intro path z
    simp [extractRec, zeroRec, ihs, ihr]
  | consPtr nm pointee isNil rest ihp ihr =>
    intro path z
    simp [extractRec, zeroRec, ihr, Bool.or_true, Bool.true_or]

theorem extractRec_length (r : Rec) : ∀ (path : String) (z : Bool),
    (extractRec path z r).length = leafCount r := by
  induction r with
  | nil => intro path z; rfl
  | consLeaf nm ty v rest ih =>
    intro path z
    simp [extractRec, leafCount, ih]
    omega
  | consNested nm sub rest ihs ihr =>
    intro path z
    simp [extractRec, leafCount, ihs, ihr]
  | consPtr nm pointee isNil rest ihp ihr =>
    intro path z
    simp [extractRec, leafCount, ihp, ihr]

theorem extractRec_names (r : Rec) : ∀ (path : String) (z1 z2 : Bool),
    (extractRec path z1 r).map Field.Name = (extractRec path z2 r).map Field.Name := by
  induction r with
  | nil => intro path z1 z2; rfl
  | consLeaf nm ty v rest ih =>
    intro path z1 z2
    simp [extractRec, mkLeafField]
    exact ih path z1 z2
  | consNested nm sub rest ihs ihr =>
    intro path z1 z2
    simp only [extractRec, List.map_append]
    rw [ihs _ z1 z2, ihr _ z1 z2]
  | consPtr nm pointee isNil rest ihp ihr =>
    intro path z1 z2
    simp only [extractRec, List.map_append]
    rw [ihp _ (z1 || isNil) (z2 || isNil), ihr _ z1 z2]

theorem extractRec_zero_values (r : Rec) : ∀ (path : String),
    ∀ fld ∈ extractRec path true r, fld.Value = "" := by
  induction r with
  | nil => intro path fld h; cases h
  | consLeaf nm ty v rest ih =>
    intro path fld h
    simp only [extractRec, List.mem_cons, if_true] at h
    rcases h with h | h
    · rw [h]
      rfl
    · exact ih path fld h
  | consNested nm sub rest ihs ihr =>
    intro path fld h
    rcases List.mem_append.mp h with h | h
    · exact ihs _ fld h
    · exact ihr path fld h
  | consPtr nm pointee isNil rest ihp ihr =>
    intro path fld h
    simp only [extractRec, Bool.true_or] at h
    rcases List.mem_append.mp h with h | h
    · exact ihp _ fld h
    · exact ihr path fld h

/-- C8: a pointer-typed nested member that is nil is still walked — its
contribution is the walk of the pointee's zero-initialized instance,
which has one field per pointee leaf member, carries the same `Name`s as
a set pointee would, and has every `Value` empty. -/
theorem nil_pointer_walked (path : String) (zeroed : Bool) (nm : String) (p rest : Rec) :
    (extractRec path zeroed (Rec.consPtr nm p true rest)
        = extractRec (joinName path nm) false (zeroRec p) ++ extractRec path zeroed rest) ∧
    ((extractRec (joinName path nm) false (zeroRec p)).length = leafCount p) ∧
    ((extractRec (joinName path nm) false (zeroRec p)).map Field.Name
        = (extractRec (joinName path nm) false p).map Field.Name) ∧
    (∀ fld ∈ extractRec (joinName path nm) false (zeroRec p), fld.Value = "") := by
  have hz := extractRec_zeroRec p (joinName path nm) false
  refine ⟨?_, ?_, ?_, ?_⟩
  · rw [hz]
    simp [extractRec, Bool.or_true]
  · rw [hz]
    exact extractRec_length p _ true
  · rw [hz]
    exact extractRec_names p _ true false
  · rw [hz]
    exact extractRec_zero_values p _

/-! ## C10 — RenderField renders only the named field -/

/-- One unfolding step of the `RenderField` loop. -/
theorem renderFieldLoop_cons (f : Form) (exec : Field → Except String String)
    (errs : List ValidationError) (fname : String) (fld : Field) (rest : List Field)
    (html : String) :
    renderFieldLoop f exec errs fname (fld :: rest) html =
      if fld.Name != fname then renderFieldLoop f exec errs fname rest html
      else if skipDump f.Skip fld.Name then renderFieldLoop f exec errs fname rest html
      else
        match exec (attachErrs errs (enrichSelect f (setPrefix f fld))) with
        | .error e => (("", some e), f)
        | .ok s => renderFieldLoop f exec errs fname rest (html ++ s) := rfl

theorem renderFieldLoop_filter (f : Form) (exec : Field → Except String String)
    (errs : List ValidationError) (fname : String) :
    ∀ (flds : List Field) (html : String),
    renderFieldLoop f exec errs fname flds html
      = renderLoop f exec errs (flds.filter fun fl => fl.Name == fname) html := by
  intro flds
  induction flds with
  | nil => intro html; rfl
  | cons fld rest ih =>
    intro html
    rw [renderFieldLoop_cons, List.filter_cons]
    by_cases h : (fld.Name == fname) = true
    · rw [if_pos h, if_neg (by simp [bne, h])]
      rw [renderLoop_cons]
      by_cases hd : skipDump f.Skip fld.Name = true
      · rw [if_pos hd, if_pos hd]
        exact ih html
      · rw [if_neg hd, if_neg hd]
        cases hex : exec (attachErrs errs (enrichSelect f (setPrefix f fld))) with
        | error e => rfl
        | ok s => exact ih (html ++ s)
    · rw [if_neg h, if_pos (by simp [bne, h])]
      exact ih html

theorem renderLoop_all_dumped (f : Form) (exec : Field → Except String String)
    (errs : List ValidationError) :
    ∀ (flds : List Field) (html : String),
    (∀ fld ∈ flds, skipDump f.Skip fld.Name = true) →
      renderLoop f exec errs flds html = ((html, none), f) := by
  intro flds
  induction flds with
  | nil => intro html _; rfl
  | cons fld rest ih =>
    intro html hall
    rw [renderLoop_cons, if_pos (hall fld (List.mem_cons_self _ _))]
    exact ih html fun q hq => hall q (List.mem_cons_of_mem _ hq)

/-- C10: `RenderField` renders exactly the extracted fields whose `Name`
equals the requested name (the `Render` loop over that filtered
sequence); when no extracted field carries the name, or every carrier is
removed by a skip entry, the result is empty HTML and a nil error. -/
theorem renderfield_only_matching (f : Form) (exec : Field → Except String String)
    (v : Rec) (fname : String) (errs : List ValidationError) :
    (Form.RenderField f exec v fname errs
        = renderLoop f exec errs ((fields v).filter fun fl => fl.Name == fname) "") ∧
    ((∀ fld ∈ fields v, fld.Name = fname → skipDump f.Skip fld.Name = true) →
      (Form.RenderField f exec v fname errs).1 = ("", none)) := by
  have h1 : Form.RenderField f exec v fname errs
      = renderLoop f exec errs ((fields v).filter fun fl => fl.Name == fname) "" :=
    renderFieldLoop_filter f exec errs fname (fields v) ""
  refine ⟨h1, ?_⟩
  intro hall
  have h2 : ∀ fld ∈ (fields v).filter (fun fl => fl.Name == fname),
      skipDump f.Skip fld.Name = true := by
    intro fld hf
    have hm := List.mem_filter.mp hf
    exact hall fld hm.1 (eq_of_beq hm.2)
  rw [h1, renderLoop_all_dumped f exec errs _ "" h2]

end FormGo
